import Mathlib

/-!
Verification of the Dictofon voice-recorder application.

The definitions below are a shallow embedding of the TypeScript sources:
`types.ts` (the `TranscriptionStatus` enum and `Recording` interface),
`utils/audioUtils.ts` (`formatDuration`), `services/geminiService.ts`
(`transcribeAudio`), `components/AudioVisualizer.tsx` (the per-frame bar
drawing loop) and `App.tsx` (the recordings list state and its handlers
`startRecording`, `handleFileChange`, `handleTranscribe`, `handleDelete`).

JavaScript numbers that carry fractional values (durations, canvas
coordinates) are modelled as rationals; timestamps (`Date.now()`
milliseconds) as integers; JS `Math.floor`, the `%` remainder operator,
`String.prototype.padStart` and the string `||` operator are embedded as
explicit functions.
-/

namespace Dictofon

/-- `TranscriptionStatus` enum from `types.ts`. -/
inductive TranscriptionStatus where
  | IDLE
  | LOADING
  | SUCCESS
  | ERROR
deriving DecidableEq, Repr

/-- A browser `Blob`: only the fields the program reads are modelled —
its MIME `type` string and its raw byte content. -/
structure Blob where
  type : String
  bytes : List Nat
deriving DecidableEq, Repr

/-- `Recording` interface from `types.ts`.  The object-URL string stands in
for the playable reference; optional fields (`transcript`, `error?`,
`name?`) are `Option String`. -/
structure Recording where
  id : String
  blob : Blob
  url : String
  timestamp : Int
  duration : Rat
  transcript : Option String
  status : TranscriptionStatus
  error : Option String := none
  name : Option String := none
deriving DecidableEq, Repr

/-! ### The recordings-list updates of `App.tsx`

Each `setRecordings` functional update in `App.tsx` is embedded as a pure
function from the previous list to the next one. -/

/-- The `LOADING` update in `App.handleTranscribe`:
`prev.map(r => r.id === id ? { ...r, status: LOADING, error: undefined } : r)`. -/
def setStatusLoading (prev : List Recording) (id : String) : List Recording :=
  prev.map fun r =>
    if r.id = id then { r with status := .LOADING, error := none } else r

/-- The `SUCCESS` update in `App.handleTranscribe`:
`prev.map(r => r.id === id ? { ...r, status: SUCCESS, transcript } : r)`. -/
def setStatusSuccess (prev : List Recording) (id : String) (transcript : String) :
    List Recording :=
  prev.map fun r =>
    if r.id = id then { r with status := .SUCCESS, transcript := some transcript } else r

/-- The static error string of the `catch` branch of `App.handleTranscribe`. -/
def transcribeErrorMessage : String := "Не удалось транскрибировать."

/-- The `ERROR` update in the `catch` of `App.handleTranscribe`:
`prev.map(r => r.id === id ? { ...r, status: ERROR, error: "Не удалось транскрибировать." } : r)`. -/
def setStatusError (prev : List Recording) (id : String) : List Recording :=
  prev.map fun r =>
    if r.id = id then { r with status := .ERROR, error := some transcribeErrorMessage } else r

/-- `App.handleDelete`: `setRecordings(prev => prev.filter(r => r.id !== id))`. -/
def handleDelete (prev : List Recording) (id : String) : List Recording :=
  prev.filter fun r => r.id ≠ id

/-- The guard in `RecordingItem.handleTranscribe`: `onTranscribe` fires only
when `recording.status` is `IDLE` or `ERROR`. -/
def canRequestTranscription (s : TranscriptionStatus) : Bool :=
  s = TranscriptionStatus.IDLE || s = TranscriptionStatus.ERROR

/-! ### The transcription request of `services/geminiService.ts` -/

/-- JS `a || b` on strings: the empty string is the only falsy string. -/
def jsStringOr (a b : String) : String := if a = "" then b else a

/-- The payload `transcribeAudio` hands to `ai.models.generateContent`:
model name, the inline audio part (MIME type and base64 data) and the text
prompt.  The base64 conversion (`blobToBase64`, a browser `FileReader`) is
taken as a parameter. -/
structure GenerateContentRequest where
  model : String
  mimeType : String
  base64Data : String
  prompt : String
deriving DecidableEq, Repr

/-- Request construction in `transcribeAudio`:
`const mimeType = audioBlob.type || 'audio/webm';` and the literal
`contents.parts` of the call. -/
def transcribeRequest (audioBlob : Blob) (base64Audio : String) : GenerateContentRequest :=
  { model := "gemini-2.5-flash"
  , mimeType := jsStringOr audioBlob.type "audio/webm"
  , base64Data := base64Audio
  , prompt := "Пожалуйста, сделай точную транскрипцию этой аудиозаписи. Отформатируй вывод с четкими разрывами абзацев там, где есть естественные паузы. Не добавляй никаких вводных или заключительных замечаний, только текст транскрипции." }

/-! ### Frame property of the per-id list updates -/

/-- The frame property of one `prev.map(r => r.id === id ? ... : r)` update:
same length, ids preserved positionally, entries with a different id
untouched, and identity when no entry matches. -/
def FramePreserving (prev next : List Recording) (id : String) : Prop :=
  next.length = prev.length ∧
  (∀ i : Nat, next[i]?.map Recording.id = prev[i]?.map Recording.id) ∧
  (∀ i : Nat, ∀ r : Recording, prev[i]? = some r → r.id ≠ id → next[i]? = some r) ∧
  ((∀ r ∈ prev, r.id ≠ id) → next = prev)

/-! ### `formatDuration` from `utils/audioUtils.ts` -/

/-- JS `Math.trunc`-style rounding toward zero, as performed by the `%`
operator; on a rational input. -/
def jsTrunc (q : Rat) : Int := if q < 0 then -Int.floor (-q) else Int.floor q

/-- The JS remainder operator `a % b`: `a - b * trunc(a / b)`. -/
def jsRem (a b : Rat) : Rat := a - b * (jsTrunc (a / b) : Int)

/-- JS `String.prototype.padStart(targetLength, padString)` for a one-char
pad string: prepend copies of the pad char up to the target length. -/
def jsPadStart (s : String) (targetLength : Nat) (pad : Char) : String :=
  String.mk (List.replicate (targetLength - s.length) pad) ++ s

/-- `formatDuration` from `utils/audioUtils.ts`:
`Math.floor(seconds / 60)` minutes, `Math.floor(seconds % 60)` seconds,
rendered `mins + ":" + secs.toString().padStart(2, '0')`. -/
def formatDuration (seconds : Rat) : String :=
  let mins : Int := Int.floor (seconds / 60)
  let secs : Int := Int.floor (jsRem seconds 60)
  toString mins ++ ":" ++ jsPadStart (toString secs) 2 '0'

/-- Spec-side rendering for C7: a number below 100 written with exactly two
digits. -/
def twoDigitString (n : Nat) : String :=
  String.mk [Nat.digitChar (n / 10), Nat.digitChar (n % 10)]

/-! ### The per-frame draw loop of `components/AudioVisualizer.tsx` -/

/-- One bar painted by
`ctx.roundRect(x, canvas.height - barHeight, barWidth, barHeight, 4)`. -/
structure Bar where
  x : Rat
  y : Rat
  width : Rat
  height : Rat
deriving DecidableEq, Repr

/-- The `for` loop body of `draw`: walk the frequency-bin bytes advancing
`x` by `barWidth + 1` per bin; `barHeight = dataArray[i] / 1.5`, and the
rect is painted only under `if (barHeight > 0)`. -/
def drawBarsLoop (barWidth canvasHeight : Rat) : Rat → List Nat → List Bar
  | _, [] => []
  | x, v :: rest =>
    let barHeight : Rat := (v : Rat) / 1.5
    let tail := drawBarsLoop barWidth canvasHeight (x + barWidth + 1) rest
    if barHeight > 0 then
      { x := x, y := canvasHeight - barHeight, width := barWidth, height := barHeight } :: tail
    else
      tail

/-- The bars painted by one invocation of `draw`:
`barWidth = (canvas.width / bufferLength) * 2.5` and `x` starts at `0`. -/
def drawBars (canvasWidth canvasHeight : Rat) (dataArray : List Nat) : List Bar :=
  drawBarsLoop (canvasWidth / (dataArray.length : Rat) * 2.5) canvasHeight 0 dataArray

/-! ### The capture session of `App.startRecording` -/

/-- One microphone capture session as wired up by `App.startRecording`.

`onstopCapturedRecordingTime` is the value the `recordingTime` state
variable had in the render closure that invoked `startRecording`: the
`mediaRecorder.onstop` handler is created inside that invocation, so its
`const duration = recordingTime;` reads this captured value.  The
`setRecordingTime` calls of the interval timer produce new renders with new
bindings and do not change it.  `startTime` is the `Date.now()` read when
the timer is installed (milliseconds). -/
structure CaptureSession where
  onstopCapturedRecordingTime : Rat
  startTime : Int
deriving DecidableEq, Repr

/-- The interval timer of `startRecording`:
`setRecordingTime((Date.now() - startTime) / 1000)` — the value of the
`recordingTime` state after the tick at clock `now`. -/
def timerRecordingTime (session : CaptureSession) (now : Int) : Rat :=
  ((now - session.startTime : Int) : Rat) / 1000

/-- The `duration` field stored by `mediaRecorder.onstop` in the new
`Recording`: `const duration = recordingTime;` evaluated in the closure
that created the handler. -/
def onstopDuration (session : CaptureSession) : Rat :=
  session.onstopCapturedRecordingTime

/-! ### Deletion together with the browser object-URL store -/

/-- `App.handleDelete` observed together with the browser's record of
revoked object URLs: the body is the single call
`setRecordings(prev => prev.filter(r => r.id !== id))`; it contains no
`URL.revokeObjectURL` call, so the revoked-URL record passes through
unchanged. -/
def handleDeleteWithUrls (prev : List Recording) (revokedUrls : List String)
    (id : String) : List Recording × List String :=
  (prev.filter fun r => r.id ≠ id, revokedUrls)

/-! ### The event system of `App.tsx` -/

/-- The state the temporal claims range over: the `recordings` list of
`App`, the ids whose `handleTranscribe` call is in flight (between its
`LOADING` update and the `SUCCESS`/`ERROR` update of its awaited
continuation), and the current `Date.now()` clock in milliseconds. -/
structure AppState where
  recordings : List Recording
  pendingTranscriptions : List String
  now : Int

/-- The events of `App.tsx` that affect the recordings list.

* `create` — `mediaRecorder.onstop` or `handleFileChange` prepends a new
  recording with a fresh `uuidv4()` id, `status: IDLE` and
  `timestamp: Date.now()`.
* `tick` — time passes (`Date.now()` never decreases).
* `requestTranscription` — `App.handleTranscribe` is reachable only from
  `RecordingItem.handleTranscribe`, whose guard requires the recording's
  status to be `IDLE` or `ERROR`; it applies the `LOADING` update and
  leaves the transcription in flight.
* `resolveSuccess` / `resolveError` — the awaited `transcribeAudio` call
  returns or throws, and the in-flight `handleTranscribe` applies the
  `SUCCESS` or `ERROR` update.
* `delete` — `App.handleDelete` filters the list. -/
inductive Step : AppState → AppState → Prop
  | create (s : AppState) (rec : Recording)
      (hstatus : rec.status = TranscriptionStatus.IDLE)
      (htimestamp : rec.timestamp = s.now)
      (hfreshRec : ∀ r ∈ s.recordings, r.id ≠ rec.id)
      (hfreshPending : rec.id ∉ s.pendingTranscriptions) :
      Step s { s with recordings := rec :: s.recordings }
  | tick (s : AppState) (d : Int) (hd : 0 ≤ d) :
      Step s { s with now := s.now + d }
  | requestTranscription (s : AppState) (id : String) (r : Recording)
      (hr : r ∈ s.recordings) (hid : r.id = id)
      (hguard : canRequestTranscription r.status = true) :
      Step s { s with
                recordings := setStatusLoading s.recordings id,
                pendingTranscriptions := id :: s.pendingTranscriptions }
  | resolveSuccess (s : AppState) (id : String) (transcript : String)
      (hpending : id ∈ s.pendingTranscriptions) :
      Step s { s with
                recordings := setStatusSuccess s.recordings id transcript,
                pendingTranscriptions := s.pendingTranscriptions.erase id }
  | resolveError (s : AppState) (id : String)
      (hpending : id ∈ s.pendingTranscriptions) :
      Step s { s with
                recordings := setStatusError s.recordings id,
                pendingTranscriptions := s.pendingTranscriptions.erase id }
  | delete (s : AppState) (id : String) :
      Step s { s with recordings := handleDelete s.recordings id }

/-- The initial `useState` values: empty list, nothing in flight. -/
def initialState : AppState :=
  { recordings := [], pendingTranscriptions := [], now := 0 }

/-- States reachable from the initial state through `App.tsx` events. -/
inductive Reachable : AppState → Prop
  | init : Reachable initialState
  | step {s s' : AppState} : Reachable s → Step s s' → Reachable s'

/-- Invariant carried by every reachable state. -/
structure StateInv (s : AppState) : Prop where
  idsNodup : (s.recordings.map Recording.id).Nodup
  pendingNodup : s.pendingTranscriptions.Nodup
  pendingLoading : ∀ id ∈ s.pendingTranscriptions, ∀ r ∈ s.recordings,
    r.id = id → r.status = TranscriptionStatus.LOADING
  timestampLeNow : ∀ r ∈ s.recordings, r.timestamp ≤ s.now
  sortedByTimestamp : s.recordings.Pairwise fun a b => b.timestamp ≤ a.timestamp

/-- The status transitions C1 allows: no change, a transcription request
from `IDLE`/`ERROR` to `LOADING`, or a completion from `LOADING` to
`SUCCESS`/`ERROR`. -/
def AllowedStatusTransition (before after : TranscriptionStatus) : Prop :=
  before = after ∨
  ((before = TranscriptionStatus.IDLE ∨ before = TranscriptionStatus.ERROR) ∧
    after = TranscriptionStatus.LOADING) ∨
  (before = TranscriptionStatus.LOADING ∧
    (after = TranscriptionStatus.SUCCESS ∨ after = TranscriptionStatus.ERROR))

/-! ### Sample data for closed instantiations -/

def sampleBlob : Blob := { type := "audio/webm", bytes := [1, 2, 3] }

def sampleRec (i : String) (ts : Int) (st : TranscriptionStatus) : Recording :=
  { id := i, blob := sampleBlob, url := "blob:" ++ i, timestamp := ts,
    duration := 1, transcript := none, status := st }

/-! ### Generic facts about the `prev.map(r => r.id === id ? ... : r)` pattern -/

theorem updateById_framePreserving (prev : List Recording) (id : String)
    (f : Recording → Recording) (hf : ∀ r, (f r).id = r.id) :
    FramePreserving prev (prev.map fun r => if r.id = id then f r else r) id := by
  refine ⟨List.length_map _ _, ?_, ?_, ?_⟩
  · intro i
    rw [List.getElem?_map]
    cases h : prev[i]? with
    | none => rfl
    | some r =>
      simp only [Option.map_some']
      by_cases hid : r.id = id
      · simp [hid, hf]
      · simp [hid]
  · intro i r hr hid
    rw [List.getElem?_map, hr, Option.map_some']
    simp [hid]
  · intro h
    have : ∀ r ∈ prev, (if r.id = id then f r else r) = r := by
      intro r hr
      simp [h r hr]
    calc prev.map (fun r => if r.id = id then f r else r)
        = prev.map (fun r => r) := List.map_congr_left this
      _ = prev := List.map_id' prev

/-! ### Claim theorems: list updates -/

/-- C10: `handleDelete` removes exactly the recordings whose id equals the
given id — the result is a sublist of the input (relative order and all
fields of survivors preserved), contains no recording with the given id,
keeps the multiplicity of every other recording, and is the whole list when
no recording matches. -/
theorem handleDelete_removes_exactly_matching (prev : List Recording) (id : String) :
    (handleDelete prev id).Sublist prev ∧
    (∀ r ∈ handleDelete prev id, r.id ≠ id) ∧
    (∀ r : Recording, (handleDelete prev id).count r =
      if r.id = id then 0 else prev.count r) ∧
    ((∀ r ∈ prev, r.id ≠ id) → handleDelete prev id = prev) := by
  refine ⟨List.filter_sublist _, ?_, ?_, ?_⟩
  · intro r hr
    have h := List.mem_filter.mp hr
    simpa using h.2
  · intro r
    by_cases h : r.id = id
    · rw [if_pos h]
      refine List.count_eq_zero.mpr fun hmem => ?_
      have := (List.mem_filter.mp hmem).2
      simp [h] at this
    · rw [if_neg h, handleDelete, List.count_filter]
      simpa using h
  · intro h
    rw [handleDelete, List.filter_eq_self]
    intro r hr
    simpa using h r hr

/-- Closed instantiation of `handleDelete_removes_exactly_matching`. -/
theorem handleDelete_removes_exactly_matching_witness :
    (handleDelete [sampleRec "a" 0 .IDLE, sampleRec "b" 1 .IDLE] "a" =
      [sampleRec "b" 1 .IDLE]) ∧
    (∀ r ∈ handleDelete [sampleRec "a" 0 .IDLE, sampleRec "b" 1 .IDLE] "a", r.id ≠ "a") := by
  refine ⟨by decide, ?_⟩
  exact (handleDelete_removes_exactly_matching
    [sampleRec "a" 0 .IDLE, sampleRec "b" 1 .IDLE] "a").2.1

/-- C5: every update of the transcription flow (`LOADING`, `SUCCESS`, `ERROR`)
touches only the recording with the requested id: lengths and positional ids
are preserved, recordings with a different id are unchanged in place, and if
no recording carries the id the list is entirely unchanged (the pending
result is dropped). -/
theorem transcription_updates_touch_only_matching_id
    (prev : List Recording) (id : String) (transcript : String) :
    FramePreserving prev (setStatusLoading prev id) id ∧
    FramePreserving prev (setStatusSuccess prev id transcript) id ∧
    FramePreserving prev (setStatusError prev id) id :=
  ⟨updateById_framePreserving prev id _ (fun _ => rfl),
   updateById_framePreserving prev id _ (fun _ => rfl),
   updateById_framePreserving prev id _ (fun _ => rfl)⟩

/-- Closed instantiation of `transcription_updates_touch_only_matching_id`:
a completion whose recording was deleted leaves the list unchanged. -/
theorem transcription_updates_touch_only_matching_id_witness :
    setStatusSuccess [sampleRec "b" 1 .IDLE] "a" "text" = [sampleRec "b" 1 .IDLE] :=
  ((transcription_updates_touch_only_matching_id
    [sampleRec "b" 1 .IDLE] "a" "text").2.1).2.2.2 (by decide)

/-- C4: the `catch` branch of `App.handleTranscribe` sets the failing
recording's status to `ERROR` and its error message to the one static string
`transcribeErrorMessage`, the same constant for every failure. -/
theorem transcription_failure_sets_static_error (prev : List Recording) (id : String) :
    ∀ r ∈ setStatusError prev id, r.id = id →
      r.status = TranscriptionStatus.ERROR ∧ r.error = some transcribeErrorMessage := by
  intro r hr hid
  obtain ⟨r0, hr0, rfl⟩ := List.mem_map.mp hr
  by_cases h : r0.id = id
  · simp [h]
  · rw [if_neg h] at hid ⊢
    exact absurd hid h

/-- Closed instantiation of `transcription_failure_sets_static_error`. -/
theorem transcription_failure_sets_static_error_witness :
    ({ sampleRec "a" 0 .LOADING with
        status := .ERROR,
        error := some transcribeErrorMessage } : Recording).status =
      TranscriptionStatus.ERROR ∧
    ({ sampleRec "a" 0 .LOADING with
        status := .ERROR,
        error := some transcribeErrorMessage } : Recording).error =
      some transcribeErrorMessage :=
  transcription_failure_sets_static_error [sampleRec "a" 0 .LOADING] "a"
    { sampleRec "a" 0 .LOADING with
        status := .ERROR,
        error := some transcribeErrorMessage }
    (by simp [setStatusError, sampleRec]) rfl

/-- C9: the MIME type sent by `transcribeAudio` is the blob's own type when
non-empty, and the default `audio/webm` when the blob's type is empty. -/
theorem transcribeRequest_mimeType (audioBlob : Blob) (base64Audio : String) :
    (audioBlob.type ≠ "" →
      (transcribeRequest audioBlob base64Audio).mimeType = audioBlob.type) ∧
    (audioBlob.type = "" →
      (transcribeRequest audioBlob base64Audio).mimeType = "audio/webm") := by
  constructor
  · intro h
    simp [transcribeRequest, jsStringOr, h]
  · intro h
    simp [transcribeRequest, jsStringOr, h]

/-- Closed instantiation of `transcribeRequest_mimeType` on both branches. -/
theorem transcribeRequest_mimeType_witness :
    (transcribeRequest { type := "audio/mpeg", bytes := [] } "QUJD").mimeType =
      "audio/mpeg" ∧
    (transcribeRequest { type := "", bytes := [] } "QUJD").mimeType = "audio/webm" :=
  ⟨(transcribeRequest_mimeType { type := "audio/mpeg", bytes := [] } "QUJD").1 (by decide),
   (transcribeRequest_mimeType { type := "", bytes := [] } "QUJD").2 rfl⟩

/-! ### Claim theorems: duration formatting -/

theorem jsPadStart_natRepr_lt60 : ∀ n : Nat, n < 60 →
    jsPadStart (Nat.repr n) 2 '0' = twoDigitString n := by decide

theorem int_toString_eq_natRepr (e : Int) (h : 0 ≤ e) :
    toString e = Nat.repr e.toNat := by
  cases e with
  | ofNat k => rfl
  | negSucc k => exact absurd h (Int.negSucc_lt_zero k).not_le

/-- C7: for every non-negative duration `s` in seconds, `formatDuration s`
is the string `⌊s / 60⌋`, then `":"`, then `⌊s mod 60⌋` rendered with
exactly two digits left-padded with `0` (here `s mod 60 = s - 60⌊s/60⌋`,
the mathematical remainder, which the JS `%` computes for `s ≥ 0`). -/
theorem formatDuration_spec (s : Rat) (hs : 0 ≤ s) :
    formatDuration s =
      toString (Int.floor (s / 60)) ++ ":" ++
        twoDigitString (Int.floor (s - 60 * (Int.floor (s / 60) : Int))).toNat := by
  have h60 : (0:Rat) < 60 := by norm_num
  have hq : (0:Rat) ≤ s / 60 := div_nonneg hs (le_of_lt h60)
  have htrunc : jsTrunc (s / 60) = Int.floor (s / 60) := by
    rw [jsTrunc, if_neg (not_lt.mpr hq)]
  have hrem : jsRem s 60 = s - 60 * (Int.floor (s / 60) : Int) := by
    rw [jsRem, htrunc]
  set m : Int := Int.floor (s / 60) with hm
  have hfloor_le : (m : Rat) ≤ s / 60 := Int.floor_le _
  have hlt_floor : s / 60 < (m : Rat) + 1 := Int.lt_floor_add_one _
  have hfrac0 : (0:Rat) ≤ s - 60 * (m : Rat) := by nlinarith
  have hfrac60 : s - 60 * (m : Rat) < 60 := by nlinarith
  have hsecs0 : (0:Int) ≤ Int.floor (s - 60 * (m : Rat)) := Int.floor_nonneg.mpr hfrac0
  have hsecs60 : Int.floor (s - 60 * (m : Rat)) < 60 :=
    Int.floor_lt.mpr (by exact_mod_cast hfrac60)
  set e : Int := Int.floor (s - 60 * (m : Rat)) with he
  have hlt : e.toNat < 60 := by omega
  have step1 : formatDuration s =
      toString m ++ ":" ++ jsPadStart (toString e) 2 '0' := by
    show toString (Int.floor (s / 60)) ++ ":" ++
        jsPadStart (toString (Int.floor (jsRem s 60))) 2 '0' =
      toString m ++ ":" ++ jsPadStart (toString e) 2 '0'
    rw [hrem]
  rw [step1, int_toString_eq_natRepr e hsecs0, jsPadStart_natRepr_lt60 e.toNat hlt]

/-- Closed instantiation of `formatDuration_spec` at 75 seconds. -/
theorem formatDuration_spec_witness :
    (0:Rat) ≤ 75 ∧
    formatDuration 75 =
      toString (Int.floor ((75:Rat) / 60)) ++ ":" ++
        twoDigitString (Int.floor ((75:Rat) - 60 * (Int.floor ((75:Rat) / 60) : Int))).toNat :=
  ⟨by decide, formatDuration_spec 75 (by decide)⟩

/-! ### Claim theorems: visualizer bars -/

theorem drawBarsLoop_heights (barWidth canvasHeight : Rat) (x : Rat) (data : List Nat) :
    (drawBarsLoop barWidth canvasHeight x data).map Bar.height =
      (data.filter (fun v => decide (0 < v))).map (fun v => (v : Rat) / 1.5) := by
  induction data generalizing x with
  | nil => rfl
  | cons v rest ih =>
    rw [drawBarsLoop]
    by_cases hv : 0 < v
    · have hpos : ((v : Rat) / 1.5) > 0 := by
        apply div_pos
        · exact_mod_cast hv
        · norm_num
      rw [if_pos hpos]
      simp only [List.map_cons, ih, List.filter_cons]
      simp [hv]
    · have hv0 : v = 0 := by omega
      subst hv0
      have : ¬ (((0 : Nat) : Rat) / 1.5 > 0) := by norm_num
      rw [if_neg this]
      simp [ih]

/-- C8 counterexample: with one frequency bin holding byte value 3, the
rendered bar's height is 2 = 3 / 1.5, not the byte value 3. -/
theorem drawBars_height_ne_byte_value :
    (drawBars 600 128 [3]).map Bar.height = [2] ∧ (2 : Rat) ≠ 3 := by
  constructor
  · rw [drawBars, drawBarsLoop_heights]
    norm_num
  · norm_num

/-- C8 amended: on each frame the rendered bars are, in order, one bar per
positive frequency-bin byte, its height the byte value divided by 1.5;
bins holding byte 0 render no bar. -/
theorem drawBars_heights (canvasWidth canvasHeight : Rat) (dataArray : List Nat) :
    (drawBars canvasWidth canvasHeight dataArray).map Bar.height =
      (dataArray.filter (fun v => decide (0 < v))).map (fun v => (v : Rat) / 1.5) :=
  drawBarsLoop_heights _ _ _ _

/-! ### Invariants of the reachable states -/

theorem mem_updateById {prev : List Recording} {id : String}
    {f : Recording → Recording} {r' : Recording}
    (h : r' ∈ prev.map fun r => if r.id = id then f r else r) :
    ∃ r, r ∈ prev ∧ r' = (if r.id = id then f r else r) := by
  obtain ⟨r, hr, heq⟩ := List.mem_map.mp h
  exact ⟨r, hr, heq.symm⟩

theorem updateById_map_id (prev : List Recording) (id : String)
    (f : Recording → Recording) (hf : ∀ r, (f r).id = r.id) :
    ((prev.map fun r => if r.id = id then f r else r).map Recording.id) =
      prev.map Recording.id := by
  rw [List.map_map]
  apply List.map_congr_left
  intro r _
  by_cases h : r.id = id <;> simp [Function.comp, h, hf]

theorem updateById_pairwise (prev : List Recording) (id : String)
    (f : Recording → Recording) (hf : ∀ r, (f r).timestamp = r.timestamp)
    (h : prev.Pairwise fun a b => b.timestamp ≤ a.timestamp) :
    (prev.map fun r => if r.id = id then f r else r).Pairwise
      fun a b => b.timestamp ≤ a.timestamp := by
  rw [List.pairwise_map]
  refine h.imp fun {a b} hab => ?_
  by_cases ha : a.id = id <;> by_cases hb : b.id = id <;>
    simpa [ha, hb, hf] using hab

theorem mem_id_unique {l : List Recording} (hnd : (l.map Recording.id).Nodup)
    {r r' : Recording} (hr : r ∈ l) (hr' : r' ∈ l) (h : r.id = r'.id) : r = r' :=
  List.inj_on_of_nodup_map hnd hr hr' h

theorem reachable_stateInv {s : AppState} (h : Reachable s) : StateInv s := by
  induction h with
  | init =>
    exact ⟨List.nodup_nil, List.nodup_nil, by simp [initialState], by simp [initialState],
      List.Pairwise.nil⟩
  | step hreach hstep ih =>
    rename_i s1 s2
    obtain ⟨nd, pnd, pl, tle, srt⟩ := ih
    cases hstep with
    | create rec hstatus hts hfreshRec hfreshPending =>
      refine ⟨?_, pnd, ?_, ?_, ?_⟩
      · rw [List.map_cons, List.nodup_cons]
        refine ⟨fun hmem => ?_, nd⟩
        obtain ⟨r, hrmem, heq⟩ := List.mem_map.mp hmem
        exact hfreshRec r hrmem heq
      · intro pid hpid r hr hrid
        rcases List.mem_cons.mp hr with rfl | hrmem
        · exact absurd (by rw [hrid]; exact hpid) hfreshPending
        · exact pl pid hpid r hrmem hrid
      · intro r hr
        rcases List.mem_cons.mp hr with rfl | hrmem
        · exact le_of_eq hts
        · exact tle r hrmem
      · refine List.pairwise_cons.mpr ⟨fun b hb => ?_, srt⟩
        rw [hts]
        exact tle b hb
    | tick d hd =>
      refine ⟨nd, pnd, pl, ?_, srt⟩
      intro r hr
      show r.timestamp ≤ s1.now + d
      have := tle r hr
      omega
    | requestTranscription id rq hrq hrqid hguard =>
      refine ⟨?_, ?_, ?_, ?_, ?_⟩
      · show (((s1.recordings.map fun r =>
            if r.id = id then { r with status := .LOADING, error := none } else r).map
              Recording.id)).Nodup
        rw [updateById_map_id s1.recordings id
          (fun r => { r with status := .LOADING, error := none }) (fun _ => rfl)]
        exact nd
      · refine List.nodup_cons.mpr ⟨fun hmem => ?_, pnd⟩
        have hload := pl id hmem rq hrq hrqid
        simp [canRequestTranscription, hload] at hguard
      · intro pid hpid r' hr' hrid
        obtain ⟨r0, hr0, heq⟩ := mem_updateById hr'
        by_cases h0 : r0.id = id
        · rw [heq, if_pos h0]
        · rw [if_neg h0] at heq
          subst heq
          rcases List.mem_cons.mp hpid with rfl | hpmem
          · exact absurd hrid h0
          · exact pl pid hpmem r' hr0 hrid
      · intro r' hr'
        obtain ⟨r0, hr0, heq⟩ := mem_updateById hr'
        have hts' : r'.timestamp = r0.timestamp := by
          by_cases h0 : r0.id = id
          · rw [heq, if_pos h0]
          · rw [heq, if_neg h0]
        rw [hts']
        exact tle r0 hr0
      · exact updateById_pairwise _ _ _ (fun _ => rfl) srt
    | resolveSuccess id transcript hpending =>
      refine ⟨?_, List.Nodup.erase id pnd, ?_, ?_, ?_⟩
      · show (((s1.recordings.map fun r =>
            if r.id = id then
              { r with status := .SUCCESS, transcript := some transcript } else r).map
              Recording.id)).Nodup
        rw [updateById_map_id s1.recordings id
          (fun r => { r with status := .SUCCESS, transcript := some transcript })
          (fun _ => rfl)]
        exact nd
      · intro pid hpid r' hr' hrid
        have hpid' : pid ≠ id ∧ pid ∈ s1.pendingTranscriptions :=
          (List.Nodup.mem_erase_iff pnd).mp hpid
        obtain ⟨r0, hr0, heq⟩ := mem_updateById hr'
        by_cases h0 : r0.id = id
        · have hid' : r0.id = pid := by rw [heq, if_pos h0] at hrid; exact hrid
          exact absurd (hid'.symm.trans h0) hpid'.1
        · rw [if_neg h0] at heq
          subst heq
          exact pl pid hpid'.2 r' hr0 hrid
      · intro r' hr'
        obtain ⟨r0, hr0, heq⟩ := mem_updateById hr'
        have hts' : r'.timestamp = r0.timestamp := by
          by_cases h0 : r0.id = id
          · rw [heq, if_pos h0]
          · rw [heq, if_neg h0]
        rw [hts']
        exact tle r0 hr0
      · exact updateById_pairwise _ _ _ (fun _ => rfl) srt
    | resolveError id hpending =>
      refine ⟨?_, List.Nodup.erase id pnd, ?_, ?_, ?_⟩
      · show (((s1.recordings.map fun r =>
            if r.id = id then
              { r with status := .ERROR, error := some transcribeErrorMessage } else r).map
              Recording.id)).Nodup
        rw [updateById_map_id s1.recordings id
          (fun r => { r with status := .ERROR, error := some transcribeErrorMessage })
          (fun _ => rfl)]
        exact nd
      · intro pid hpid r' hr' hrid
        have hpid' : pid ≠ id ∧ pid ∈ s1.pendingTranscriptions :=
          (List.Nodup.mem_erase_iff pnd).mp hpid
        obtain ⟨r0, hr0, heq⟩ := mem_updateById hr'
        by_cases h0 : r0.id = id
        · have hid' : r0.id = pid := by rw [heq, if_pos h0] at hrid; exact hrid
          exact absurd (hid'.symm.trans h0) hpid'.1
        · rw [if_neg h0] at heq
          subst heq
          exact pl pid hpid'.2 r' hr0 hrid
      · intro r' hr'
        obtain ⟨r0, hr0, heq⟩ := mem_updateById hr'
        have hts' : r'.timestamp = r0.timestamp := by
          by_cases h0 : r0.id = id
          · rw [heq, if_pos h0]
          · rw [heq, if_neg h0]
        rw [hts']
        exact tle r0 hr0
      · exact updateById_pairwise _ _ _ (fun _ => rfl) srt
    | delete id =>
      refine ⟨?_, pnd, ?_, ?_, ?_⟩
      · exact List.Nodup.sublist ((List.filter_sublist _).map Recording.id) nd
      · intro pid hpid r hr hrid
        exact pl pid hpid r (List.mem_filter.mp hr).1 hrid
      · intro r hr
        exact tle r (List.mem_filter.mp hr).1
      · exact List.Pairwise.sublist (List.filter_sublist _) srt

/-! ### Claim theorems: status transitions and list order -/

/-- C1: a transcription request fires only under the `IDLE`/`ERROR` guard of
`RecordingItem.handleTranscribe` (the `requestTranscription` event), moves
the recording to `LOADING`, and the flow's completion moves it to `SUCCESS`
or `ERROR`; across every event of the system, a recording's status either
stays fixed or makes one of exactly these transitions. -/
theorem status_transitions_allowed {s s' : AppState}
    (hs : Reachable s) (hstep : Step s s') :
    ∀ r ∈ s.recordings, ∀ r' ∈ s'.recordings, r'.id = r.id →
      AllowedStatusTransition r.status r'.status := by
  obtain ⟨nd, pnd, pl, tle, srt⟩ := reachable_stateInv hs
  cases hstep with
  | create rec hstatus hts hfreshRec hfreshPending =>
    intro r hr r' hr' hid
    rcases List.mem_cons.mp hr' with rfl | hr'mem
    · exact absurd hid.symm (hfreshRec r hr)
    · rw [mem_id_unique nd hr'mem hr hid]
      exact Or.inl rfl
  | tick d hd =>
    intro r hr r' hr' hid
    rw [mem_id_unique nd hr' hr hid]
    exact Or.inl rfl
  | requestTranscription id rq hrq hrqid hguard =>
    intro r hr r' hr' hid
    obtain ⟨r0, hr0, heq⟩ := mem_updateById hr'
    by_cases h0 : r0.id = id
    · rw [if_pos h0] at heq
      have hr0r : r0 = r := mem_id_unique nd hr0 hr (by rw [← hid, heq])
      have hr0rq : r0 = rq := mem_id_unique nd hr0 hrq (by rw [h0, hrqid])
      have hstat : r.status = TranscriptionStatus.IDLE ∨
          r.status = TranscriptionStatus.ERROR := by
        rw [← hr0r, hr0rq]
        simpa [canRequestTranscription] using hguard
      refine Or.inr (Or.inl ⟨hstat, ?_⟩)
      rw [heq]
    · rw [if_neg h0] at heq
      subst heq
      rw [mem_id_unique nd hr0 hr hid]
      exact Or.inl rfl
  | resolveSuccess id transcript hpending =>
    intro r hr r' hr' hid
    obtain ⟨r0, hr0, heq⟩ := mem_updateById hr'
    by_cases h0 : r0.id = id
    · rw [if_pos h0] at heq
      have hr0r : r0 = r := mem_id_unique nd hr0 hr (by rw [← hid, heq])
      have hload : r.status = TranscriptionStatus.LOADING :=
        pl id hpending r hr (by rw [← hr0r, h0])
      refine Or.inr (Or.inr ⟨hload, Or.inl ?_⟩)
      rw [heq]
    · rw [if_neg h0] at heq
      subst heq
      rw [mem_id_unique nd hr0 hr hid]
      exact Or.inl rfl
  | resolveError id hpending =>
    intro r hr r' hr' hid
    obtain ⟨r0, hr0, heq⟩ := mem_updateById hr'
    by_cases h0 : r0.id = id
    · rw [if_pos h0] at heq
      have hr0r : r0 = r := mem_id_unique nd hr0 hr (by rw [← hid, heq])
      have hload : r.status = TranscriptionStatus.LOADING :=
        pl id hpending r hr (by rw [← hr0r, h0])
      refine Or.inr (Or.inr ⟨hload, Or.inr ?_⟩)
      rw [heq]
    · rw [if_neg h0] at heq
      subst heq
      rw [mem_id_unique nd hr0 hr hid]
      exact Or.inl rfl
  | delete id =>
    intro r hr r' hr' hid
    rw [mem_id_unique nd (List.mem_filter.mp hr').1 hr hid]
    exact Or.inl rfl

/-- Closed instantiation of `status_transitions_allowed`: the reachable
one-recording state accepts a transcription request, `IDLE → LOADING`. -/
theorem status_transitions_allowed_witness :
    AllowedStatusTransition TranscriptionStatus.IDLE TranscriptionStatus.LOADING := by
  have h1 : Reachable
      { recordings := [sampleRec "a" 0 .IDLE],
        pendingTranscriptions := [],
        now := 0 } :=
    Reachable.step Reachable.init
      (Step.create initialState (sampleRec "a" 0 .IDLE) rfl rfl
        (by simp [initialState]) (by simp [initialState]))
  have h2 : Step
      { recordings := [sampleRec "a" 0 .IDLE], pendingTranscriptions := [], now := 0 }
      { recordings := setStatusLoading [sampleRec "a" 0 .IDLE] "a",
        pendingTranscriptions := ["a"], now := 0 } :=
    Step.requestTranscription _ "a" (sampleRec "a" 0 .IDLE) (by simp) rfl (by decide)
  exact status_transitions_allowed h1 h2 (sampleRec "a" 0 .IDLE) (by simp)
    { sampleRec "a" 0 .IDLE with
        status := .LOADING,
        error := none }
    (by simp [setStatusLoading, sampleRec]) rfl

/-- C6: every reachable recordings list is ordered newest first — both
creation paths prepend a recording stamped with the current clock, no event
reorders survivors, so the list is always sorted by timestamp descending. -/
theorem recordings_sorted_newest_first {s : AppState} (h : Reachable s) :
    s.recordings.Pairwise fun a b => b.timestamp ≤ a.timestamp :=
  (reachable_stateInv h).sortedByTimestamp

/-- Closed instantiation of `recordings_sorted_newest_first` after two
creations five seconds apart. -/
theorem recordings_sorted_newest_first_witness :
    [sampleRec "b" 5 .IDLE, sampleRec "a" 0 .IDLE].Pairwise
      (fun a b => b.timestamp ≤ a.timestamp) := by
  have h1 : Reachable
      { recordings := [sampleRec "a" 0 .IDLE],
        pendingTranscriptions := [],
        now := 0 } :=
    Reachable.step Reachable.init
      (Step.create initialState (sampleRec "a" 0 .IDLE) rfl rfl
        (by simp [initialState]) (by simp [initialState]))
  have h2 : Reachable
      { recordings := [sampleRec "a" 0 .IDLE],
        pendingTranscriptions := [],
        now := 5 } :=
    Reachable.step h1 (Step.tick _ 5 (by decide))
  have h3 : Reachable
      { recordings := [sampleRec "b" 5 .IDLE, sampleRec "a" 0 .IDLE],
        pendingTranscriptions := [],
        now := 5 } :=
    Reachable.step h2
      (Step.create _ (sampleRec "b" 5 .IDLE) rfl rfl (by simp [sampleRec]) (by simp))
  exact recordings_sorted_newest_first h3

/-! ### Claim theorems: capture duration and deletion -/

/-- C2 at a failing input: a capture started while the `recordingTime`
state held its initial/reset value `0` and stopped 5000 ms later.  The
timer reads 5 seconds at the moment of stop, but `mediaRecorder.onstop`
stores the `recordingTime` captured by its closure — `0`, not 5. -/
theorem onstopDuration_ignores_timer :
    onstopDuration { onstopCapturedRecordingTime := 0, startTime := 0 } = 0 ∧
    timerRecordingTime { onstopCapturedRecordingTime := 0, startTime := 0 } 5000 = 5 ∧
    (0 : Rat) ≠ 5 := by
  refine ⟨rfl, ?_, by norm_num⟩
  show ((5000 - 0 : Int) : Rat) / 1000 = 5
  norm_num

/-- C3 counterexample: deleting the only recording removes it from the
list, yet no object URL is revoked — the playable reference
`(sampleRec "a" 0 .IDLE).url` is not released. -/
theorem handleDelete_leaves_url_unreleased :
    (handleDeleteWithUrls [sampleRec "a" 0 .IDLE] [] "a").1 = [] ∧
    (sampleRec "a" 0 .IDLE).url ∉ (handleDeleteWithUrls [sampleRec "a" 0 .IDLE] [] "a").2 := by
  constructor
  · simp [handleDeleteWithUrls, sampleRec]
  · simp [handleDeleteWithUrls]

/-- C3 amended: user deletion removes every recording with the given id
from the list (survivors keep order and fields), but it does not release
the playable reference: the browser's revoked-URL record is unchanged, the
deleted recording's object URL never being revoked. -/
theorem handleDelete_removes_without_releasing (prev : List Recording)
    (revokedUrls : List String) (id : String) :
    (∀ r ∈ (handleDeleteWithUrls prev revokedUrls id).1, r.id ≠ id) ∧
    ((handleDeleteWithUrls prev revokedUrls id).1).Sublist prev ∧
    (handleDeleteWithUrls prev revokedUrls id).2 = revokedUrls := by
  refine ⟨?_, List.filter_sublist _, rfl⟩
  intro r hr
  simpa using (List.mem_filter.mp hr).2

/-- Closed instantiation of `handleDelete_removes_without_releasing`: even
a previously revoked URL record passes through deletion untouched. -/
theorem handleDelete_removes_without_releasing_witness :
    (handleDeleteWithUrls [sampleRec "a" 0 .IDLE] ["blob:old"] "a").2 = ["blob:old"] :=
  (handleDelete_removes_without_releasing [sampleRec "a" 0 .IDLE] ["blob:old"] "a").2.2

end Dictofon
